import Mathlib

/-!
Verification of the AutoAgent lookup-agent repository.

This file gives a shallow embedding, in Lean 4, of the core logic of the
repository: the TTL cache wrapper (`autoagent/utils/cache.py`), the staff
directory entity matcher and column resolver
(`autoagent/agents/staff_directory_agent.py`), the camera search
(`autoagent/data_access/cameras.py`), the doors location matcher
(`autoagent/data_access/doors.py`), the intent router
(`autoagent/agents/operations_agent.py`) and the table loaders.
Text is modelled as `List Char`; Python regular expressions used by the code
are compiled by hand into equivalent executable scanners, and the pandas
DataFrame values are modelled as association-list records of strings.
External I/O (the Google-Sheets worksheet fetch) is passed in as a function
parameter, mirroring the spec's treatment of it as an external collaborator.
-/

namespace AA

/-- Text is a list of characters (Python `str`). -/
abbrev Str := List Char

/-! ## Generic string helpers shared by all modules -/

/-- Python `str.lower()` (ASCII, which is all the sources use). -/
def lowerStr (s : Str) : Str := s.map Char.toLower

/-- Python `\w`: alphanumeric or underscore (ASCII). -/
def isWordChar (c : Char) : Bool := c.isAlphanum || c = '_'

/-- Does `s` begin with `pat`? (Python `str.startswith`.) -/
def beginsWith : Str → Str → Bool
  | [], _ => true
  | _ :: _, [] => false
  | p :: ps, c :: cs => p == c && beginsWith ps cs

/-- Python `pat in s`: `pat` occurs contiguously in `s`. -/
def containsSub (s pat : Str) : Bool :=
  match s with
  | [] => pat.isEmpty
  | _ :: rest => beginsWith pat s || containsSub rest pat

/-- Python `str.strip()`: remove leading and trailing whitespace. -/
def stripStr (s : Str) : Str :=
  ((s.dropWhile Char.isWhitespace).reverse.dropWhile Char.isWhitespace).reverse

/-- Worker for `splitRuns`: `cur` holds the current run, reversed. -/
def splitRunsGo (p : Char → Bool) : Str → Str → List Str
  | cur, [] => if cur.isEmpty then [] else [cur.reverse]
  | cur, c :: cs =>
    if p c then splitRunsGo p (c :: cur) cs
    else if cur.isEmpty then splitRunsGo p [] cs
    else cur.reverse :: splitRunsGo p [] cs

/-- The maximal nonempty runs of characters satisfying `p`, in order.
This is Python `[t for t in re.split(complement-class, s) if t]`, and also
`re.findall(class+, s)`. -/
def splitRuns (p : Char → Bool) (s : Str) : List Str := splitRunsGo p [] s

/-- Join a list of words with single spaces (Python `" ".join`). -/
def joinSpaces : List Str → Str
  | [] => []
  | [w] => w
  | w :: ws => w ++ ' ' :: joinSpaces ws

/-! ## TTL cache (`autoagent/utils/cache.py`, `ttl_cache`)

The decorator keeps one `lru_cache(maxsize=1)` slot (the repository's loaders
take no arguments, so the slot is a single optional value) plus the timestamp
`last_filled_at["t"]`, set whenever the TTL check clears the cache.  A call
first clears the slot and resets the timestamp if `now - last > ttl`, then
returns the cached value on a hit, or invokes the loader: on success the
result is stored, on an exception nothing is stored and the error propagates.
The loader outcome at a given call is passed in as an `Except` value. -/

structure CacheState (V : Type) where
  cached : Option V
  lastFilled : Nat
deriving DecidableEq, Repr

/-- One call of the wrapped loader (`wrapped` in `cache.py`).  Returns the
call's outcome together with the cache state after the call. -/
def getOrLoad {V E : Type} (ttlSeconds now : Nat) (ld : Except E V)
    (s : CacheState V) : Except E V × CacheState V :=
  let s1 := if ttlSeconds < now - s.lastFilled then CacheState.mk none now else s
  match s1.cached with
  | some v => (Except.ok v, s1)
  | none =>
    match ld with
    | Except.ok v => (Except.ok v, CacheState.mk (some v) s1.lastFilled)
    | Except.error e => (Except.error e, s1)

/-- `wrapped.cache_clear()` (explicit invalidation): empties the slot and
resets the timestamp to `0.0`. -/
def cacheClear {V : Type} (_s : CacheState V) : CacheState V := CacheState.mk none 0

theorem getOrLoad_ok_of_none {V E : Type} (ttlSeconds now : Nat) (w : V)
    (s : CacheState V) (h : s.cached = none) :
    (getOrLoad ttlSeconds now (Except.ok w : Except E V) s).1 = Except.ok w ∧
    ((getOrLoad ttlSeconds now (Except.ok w : Except E V) s).2).cached = some w := by
  unfold getOrLoad
  by_cases hc : ttlSeconds < now - s.lastFilled
  · simp [hc]
  · simp [hc, h]

/-- C1 counterexample.  The claim states that a `get_or_load` call made less
than `T` seconds after the value was cached (with no intervening
invalidation) returns the cached value without invoking the loader.  In the
code the TTL test compares against `last_filled_at`, which is set when the
cache is cleared, not when a value is stored: after a reload attempt fails at
time 1400 (clearing the slot and setting the timestamp), a successful load at
time 1500 caches the value 2 but leaves the timestamp at 1400; the very next
call at time 1750 — only 250 < 300 seconds after the value was cached —
clears the cache again and invokes the loader, returning the fresh value 3
rather than the cached 2. -/
theorem c1_ttl_counterexample :
    (getOrLoad 300 1500 (Except.ok 2 : Except Unit Nat)
      (getOrLoad 300 1400 (Except.error () : Except Unit Nat)
        (getOrLoad 300 1000 (Except.ok 1 : Except Unit Nat)
          (CacheState.mk (none : Option Nat) 0)).2).2).1 = Except.ok 2
    ∧ 1750 - 1500 < 300
    ∧ (getOrLoad 300 1750 (Except.ok 3 : Except Unit Nat)
        (getOrLoad 300 1500 (Except.ok 2 : Except Unit Nat)
          (getOrLoad 300 1400 (Except.error () : Except Unit Nat)
            (getOrLoad 300 1000 (Except.ok 1 : Except Unit Nat)
              (CacheState.mk (none : Option Nat) 0)).2).2).2).1 = Except.ok 3
    ∧ (Except.ok 3 : Except Unit Nat) ≠ Except.ok 2 := by
  refine ⟨rfl, by decide, rfl, ?_⟩
  intro h
  simp at h

/-- C1 (amended).  The cache behaves relative to the clear-timestamp
`lastFilled` (which coincides with the caching time whenever the value was
stored by the same call that reset the timer): a call at most `T` seconds
after that timestamp returns the cached value unchanged, without consulting
the loader; a call strictly more than `T` seconds after it invokes the loader
afresh and stores its result with a fresh timestamp; and after an explicit
invalidation the next call always invokes the loader, whatever time has
elapsed. -/
theorem c1_ttl_amended {V E : Type} (ttlSeconds now : Nat) (s : CacheState V)
    (ld : Except E V) :
    (∀ v : V, s.cached = some v → now - s.lastFilled ≤ ttlSeconds →
      getOrLoad ttlSeconds now ld s = (Except.ok v, s))
    ∧ (∀ w : V, ttlSeconds < now - s.lastFilled → ld = Except.ok w →
      getOrLoad ttlSeconds now ld s = (Except.ok w, CacheState.mk (some w) now))
    ∧ (∀ w : V, ld = Except.ok w →
      (getOrLoad ttlSeconds now ld (cacheClear s)).1 = Except.ok w
      ∧ ((getOrLoad ttlSeconds now ld (cacheClear s)).2).cached = some w) := by
  refine ⟨?_, ?_, ?_⟩
  · intro v hv hle
    unfold getOrLoad
    simp [Nat.not_lt.mpr hle, hv]
  · intro w hgt hld
    unfold getOrLoad
    simp [hgt, hld]
  · intro w hld
    subst hld
    exact getOrLoad_ok_of_none ttlSeconds now w (cacheClear s) rfl

/-- C1 amended witness: an in-TTL hit, a post-TTL reload, and a
post-invalidation reload, at concrete times. -/
theorem c1_ttl_amended_witness :
    getOrLoad 300 1100 (Except.ok 7 : Except Unit Nat)
      (CacheState.mk (some 5) 1000) = (Except.ok 5, CacheState.mk (some 5) 1000)
    ∧ getOrLoad 300 1400 (Except.ok 7 : Except Unit Nat)
      (CacheState.mk (some 5) 1000) = (Except.ok 7, CacheState.mk (some 7) 1400)
    ∧ (getOrLoad 300 1400 (Except.ok 7 : Except Unit Nat)
      (cacheClear (CacheState.mk (some 5) 1000))).1 = Except.ok 7 := by
  refine ⟨(c1_ttl_amended 300 1100 _ _).1 5 rfl (by decide),
          (c1_ttl_amended 300 1400 _ _).2.1 7 (by decide) rfl,
          ((c1_ttl_amended 300 1400 _ _).2.2 7 rfl).1⟩

/-- C2 counterexample.  The claim states that when the loader raises (for
example on a reload after TTL expiry) a previously cached entry remains in
place.  In the code the TTL branch clears the cache before invoking the
loader, so when the reload at time 1400 of an entry cached at time 1000
raises, the error propagates but the old entry is gone: the cache is empty,
not still holding 5. -/
theorem c2_loader_error_counterexample :
    (getOrLoad 300 1400 (Except.error () : Except Unit Nat)
      (CacheState.mk (some (5 : Nat)) 1000)).1 = Except.error ()
    ∧ ((getOrLoad 300 1400 (Except.error () : Except Unit Nat)
      (CacheState.mk (some (5 : Nat)) 1000)).2).cached = none
    ∧ (none : Option Nat) ≠ some 5 := by
  refine ⟨rfl, rfl, by decide⟩

/-- C2 (amended).  When the loader actually runs and raises — that is, on a
call past the TTL, or with no cached entry — the error propagates to the
caller and the cache is left empty in every case: a previously cached entry
that had expired is discarded by the clear that precedes the reload rather
than kept.  The next call therefore always retries the load.  (Within the
TTL with an entry present, the loader is never invoked at all.) -/
theorem c2_loader_error_amended {V E : Type} (ttlSeconds now : Nat)
    (s : CacheState V) (e : E)
    (h : ttlSeconds < now - s.lastFilled ∨ s.cached = none) :
    (getOrLoad ttlSeconds now (Except.error e : Except E V) s).1 = Except.error e
    ∧ ((getOrLoad ttlSeconds now (Except.error e : Except E V) s).2).cached = none
    ∧ ∀ (now2 : Nat) (w : V),
        (getOrLoad ttlSeconds now2 (Except.ok w : Except E V)
          ((getOrLoad ttlSeconds now (Except.error e : Except E V) s).2)).1
          = Except.ok w := by
  have hres : ((getOrLoad ttlSeconds now (Except.error e : Except E V) s).1
      = Except.error e)
      ∧ ((getOrLoad ttlSeconds now (Except.error e : Except E V) s).2).cached
      = none := by
    unfold getOrLoad
    rcases h with hgt | hnone
    · simp [hgt]
    · by_cases hc : ttlSeconds < now - s.lastFilled
      · simp [hc]
      · simp [hc, hnone]
  refine ⟨hres.1, hres.2, ?_⟩
  intro now2 w
  exact (getOrLoad_ok_of_none ttlSeconds now2 w _ hres.2).1

/-- C2 amended witness at concrete inputs: expired entry, failing reload. -/
theorem c2_loader_error_amended_witness :
    (getOrLoad 300 1400 (Except.error () : Except Unit Nat)
      (CacheState.mk (some 5) 1000)).1 = Except.error ()
    ∧ ((getOrLoad 300 1400 (Except.error () : Except Unit Nat)
      (CacheState.mk (some 5) 1000)).2).cached = none
    ∧ (getOrLoad 300 1500 (Except.ok 9 : Except Unit Nat)
        ((getOrLoad 300 1400 (Except.error () : Except Unit Nat)
          (CacheState.mk (some 5) 1000)).2)).1 = Except.ok 9 := by
  obtain ⟨h1, h2, h3⟩ :=
    c2_loader_error_amended 300 1400 (CacheState.mk (some (5 : Nat)) 1000) ()
      (Or.inl (by decide))
  exact ⟨h1, h2, h3 1500 9⟩


/-! ## Staff directory entity matcher
(`autoagent/agents/staff_directory_agent.py`, `find_best_name_in_text` and
`list_name_candidates`)

The candidate clean names (the `__clean_name__` column of the data frame) and
the display names (the `Name` column) are passed in as lists. -/

/-- `_name_tokens`: split a string into runs of word characters. -/
def nameTokens (s : Str) : List Str := splitRuns isWordChar s

/-- The running `best_len` of the Phase A loop: the length of the current
best candidate, `0` when there is none. -/
def optLen : Option Str → Nat
  | some b => b.length
  | none => 0

/-- The Phase A loop of `find_best_name_in_text`: remember the longest clean
name occurring as a contiguous substring of the lowered query (the first one
found wins on equal length; empty names are skipped). -/
def phaseAGo (t : Str) : Option Str → List Str → Option Str
  | best, [] => best
  | best, n :: ns =>
    if n.isEmpty then phaseAGo t best ns
    else if containsSub t n && decide (optLen best < n.length) then
      phaseAGo t (some n) ns
    else phaseAGo t best ns

/-- The Phase B scoring of `find_best_name_in_text`: each candidate with a
nonempty token list and at least one token among the query's tokens scores
`(name, matched, total_token_count)`. -/
def tokenHits (names : List Str) (t : Str) : List (Str × Nat × Nat) :=
  let qToks := nameTokens t
  names.filterMap (fun n =>
    let toks := nameTokens n
    if toks.isEmpty then none
    else
      let m := toks.countP (fun tok => qToks.contains tok)
      if m == 0 then none else some (n, m, toks.length))

/-- Python `token_hits.sort(key=lambda x: (x[1], x[2]), reverse=True)`: the
stable descending order on (matched, total).  `insertionSort` with this
relation places an element before the first strictly smaller key and after
equal keys, which is exactly the stable descending sort. -/
def hitGE (a b : Str × Nat × Nat) : Prop :=
  b.2.1 < a.2.1 ∨ (a.2.1 = b.2.1 ∧ b.2.2 ≤ a.2.2)

instance : DecidableRel hitGE := fun a b =>
  inferInstanceAs (Decidable (b.2.1 < a.2.1 ∨ (a.2.1 = b.2.1 ∧ b.2.2 ≤ a.2.2)))

instance : IsTotal (Str × Nat × Nat) hitGE := ⟨fun a b => by
  rcases Nat.lt_trichotomy a.2.1 b.2.1 with h | h | h
  · exact Or.inr (Or.inl h)
  · rcases Nat.le_total a.2.2 b.2.2 with h2 | h2
    · exact Or.inr (Or.inr ⟨h.symm, h2⟩)
    · exact Or.inl (Or.inr ⟨h, h2⟩)
  · exact Or.inl (Or.inl h)⟩

instance : IsTrans (Str × Nat × Nat) hitGE := ⟨fun a b c hab hbc => by
  rcases hab with h1 | h1
  · rcases hbc with h2 | h2
    · exact Or.inl (Nat.lt_trans h2 h1)
    · exact Or.inl (h2.1 ▸ h1)
  · rcases hbc with h2 | h2
    · exact Or.inl (h1.1 ▸ h2)
    · exact Or.inr ⟨h1.1.trans h2.1, Nat.le_trans h2.2 h1.2⟩⟩

/-- The Phase B decision of `find_best_name_in_text` on the sorted hits:
a single winner only when the top matched count strictly exceeds the
runner-up's (`top[1] > token_hits[1][1]`), else no single pick. -/
def phaseBPick : List (Str × Nat × Nat) → Option Str
  | [] => none
  | [h] => some h.1
  | h1 :: h2 :: _ => if h2.2.1 < h1.2.1 then some h1.1 else none

/-- `StaffDirectory.find_best_name_in_text`. -/
def findBestName (names : List Str) (text : Str) : Option Str :=
  let t := lowerStr text
  match phaseAGo t none names with
  | some b => some b
  | none => phaseBPick (List.insertionSort hitGE (tokenHits names t))

/-- `StaffDirectory.list_name_candidates`: ranked display-name suggestions,
capped at `limit`.  `pairs` zips the `__clean_name__` column with the `Name`
column. -/
def listNameCandidates (pairs : List (Str × Str)) (text : Str) (limit : Nat) :
    List Str :=
  let t := lowerStr text
  let qToks := nameTokens t
  let scored := pairs.filterMap (fun p =>
    let toks := nameTokens p.1
    if toks.isEmpty then none
    else
      let m := toks.countP (fun tok => qToks.contains tok)
      if m == 0 then none else some (p.2, m, toks.length))
  ((List.insertionSort hitGE scored).take limit).map (fun s => s.1)

theorem length_pos_of_isEmpty_false {n : Str} (h : n.isEmpty = false) :
    0 < n.length := by
  cases n with
  | nil => simp [List.isEmpty] at h
  | cons c cs => exact Nat.succ_pos _

theorem phaseAGo_mono (t : Str) : ∀ (ns : List Str) (b0 b : Str),
    phaseAGo t (some b0) ns = some b → b0.length ≤ b.length := by
  intro ns
  induction ns with
  | nil =>
    intro b0 b h
    cases h
    exact Nat.le_refl _
  | cons n ns ih =>
    intro b0 b h
    simp only [phaseAGo] at h
    by_cases he : n.isEmpty = true
    · rw [if_pos he] at h
      exact ih b0 b h
    · rw [if_neg he] at h
      by_cases hc : (containsSub t n && decide (optLen (some b0) < n.length)) = true
      · rw [if_pos hc] at h
        have hlen := ih n b h
        have hlt : optLen (some b0) < n.length :=
          of_decide_eq_true ((Bool.and_eq_true _ _).mp hc).2
        exact Nat.le_trans (Nat.le_of_lt hlt) hlen
      · rw [if_neg hc] at h
        exact ih b0 b h

theorem phaseAGo_some (t : Str) : ∀ (ns : List Str) (b0 : Str),
    ∃ b, phaseAGo t (some b0) ns = some b := by
  intro ns
  induction ns with
  | nil => exact fun b0 => ⟨b0, rfl⟩
  | cons n ns ih =>
    intro b0
    simp only [phaseAGo]
    by_cases he : n.isEmpty = true
    · rw [if_pos he]; exact ih b0
    · rw [if_neg he]
      by_cases hc : (containsSub t n && decide (optLen (some b0) < n.length)) = true
      · rw [if_pos hc]; exact ih n
      · rw [if_neg hc]; exact ih b0

theorem phaseAGo_pedigree (t : Str) : ∀ (ns : List Str) (best : Option Str) (b : Str),
    phaseAGo t best ns = some b →
    best = some b ∨ (b ∈ ns ∧ b.isEmpty = false ∧ containsSub t b = true) := by
  intro ns
  induction ns with
  | nil =>
    intro best b h
    exact Or.inl h
  | cons n ns ih =>
    intro best b h
    simp only [phaseAGo] at h
    by_cases he : n.isEmpty = true
    · rw [if_pos he] at h
      rcases ih best b h with h1 | h2
      · exact Or.inl h1
      · exact Or.inr ⟨List.mem_cons_of_mem _ h2.1, h2.2⟩
    · rw [if_neg he] at h
      by_cases hc : (containsSub t n && decide (optLen best < n.length)) = true
      · rw [if_pos hc] at h
        rcases ih (some n) b h with h1 | h2
        · cases h1
          exact Or.inr ⟨List.mem_cons_self _ _, Bool.eq_false_iff.mpr he,
            ((Bool.and_eq_true _ _).mp hc).1⟩
        · exact Or.inr ⟨List.mem_cons_of_mem _ h2.1, h2.2⟩
      · rw [if_neg hc] at h
        rcases ih best b h with h1 | h2
        · exact Or.inl h1
        · exact Or.inr ⟨List.mem_cons_of_mem _ h2.1, h2.2⟩

theorem phaseAGo_dominates (t : Str) : ∀ (ns : List Str) (best : Option Str) (b : Str),
    phaseAGo t best ns = some b →
    ∀ n, n ∈ ns → n.isEmpty = false → containsSub t n = true → n.length ≤ b.length := by
  intro ns
  induction ns with
  | nil =>
    intro best b _ n hn
    cases hn
  | cons m ms ih =>
    intro best b h n hn hne hcs
    simp only [phaseAGo] at h
    rcases List.mem_cons.mp hn with hnm | hnms
    · subst hnm
      rw [if_neg (by simp [hne])] at h
      by_cases hc : (containsSub t n && decide (optLen best < n.length)) = true
      · rw [if_pos hc] at h
        exact phaseAGo_mono t ms n b h
      · rw [if_neg hc] at h
        have hnotlt : ¬(optLen best < n.length) := by
          intro hlt
          exact hc (by simp [hcs, hlt])
        cases best with
        | none =>
          exact absurd (length_pos_of_isEmpty_false hne) hnotlt
        | some b0 =>
          have hle : n.length ≤ b0.length := Nat.le_of_not_lt hnotlt
          exact Nat.le_trans hle (phaseAGo_mono t ms b0 b h)
    · by_cases he : m.isEmpty = true
      · rw [if_pos he] at h
        exact ih best b h n hnms hne hcs
      · rw [if_neg he] at h
        by_cases hc : (containsSub t m && decide (optLen best < m.length)) = true
        · rw [if_pos hc] at h
          exact ih (some m) b h n hnms hne hcs
        · rw [if_neg hc] at h
          exact ih best b h n hnms hne hcs

theorem phaseAGo_progress (t : Str) : ∀ (ns : List Str) (best : Option Str),
    (∃ n, n ∈ ns ∧ n.isEmpty = false ∧ containsSub t n = true) →
    ∃ b, phaseAGo t best ns = some b := by
  intro ns
  induction ns with
  | nil =>
    intro best h
    rcases h with ⟨n, hn, _⟩
    cases hn
  | cons m ms ih =>
    intro best h
    simp only [phaseAGo]
    rcases h with ⟨n, hn, hne, hcs⟩
    rcases List.mem_cons.mp hn with hnm | hnms
    · subst hnm
      rw [if_neg (by simp [hne])]
      by_cases hc : (containsSub t n && decide (optLen best < n.length)) = true
      · rw [if_pos hc]
        exact phaseAGo_some t ms n
      · rw [if_neg hc]
        have hnotlt : ¬(optLen best < n.length) := by
          intro hlt
          exact hc (by simp [hcs, hlt])
        cases best with
        | none =>
          exact absurd (length_pos_of_isEmpty_false hne) hnotlt
        | some b0 =>
          exact phaseAGo_some t ms b0
    · by_cases he : m.isEmpty = true
      · rw [if_pos he]
        exact ih best ⟨n, hnms, hne, hcs⟩
      · rw [if_neg he]
        by_cases hc : (containsSub t m && decide (optLen best < m.length)) = true
        · rw [if_pos hc]
          exact ih (some m) ⟨n, hnms, hne, hcs⟩
        · rw [if_neg hc]
          exact ih best ⟨n, hnms, hne, hcs⟩

theorem phaseAGo_none (t : Str) : ∀ (ns : List Str),
    (∀ n, n ∈ ns → ¬(n.isEmpty = false ∧ containsSub t n = true)) →
    phaseAGo t none ns = none := by
  intro ns
  induction ns with
  | nil => intro _; rfl
  | cons m ms ih =>
    intro h
    simp only [phaseAGo]
    by_cases he : m.isEmpty = true
    · rw [if_pos he]
      exact ih (fun n hn => h n (List.mem_cons_of_mem _ hn))
    · have hcs : containsSub t m = false := by
        by_contra hcs
        exact h m (List.mem_cons_self _ _)
          ⟨Bool.eq_false_iff.mpr he, eq_true_of_ne_false hcs⟩
      rw [if_neg he, if_neg (by simp [hcs])]
      exact ih (fun n hn => h n (List.mem_cons_of_mem _ hn))

theorem hitGE_le {a b : Str × Nat × Nat} (h : hitGE a b) : b.2.1 ≤ a.2.1 := by
  rcases h with h | h
  · exact Nat.le_of_lt h
  · exact Nat.le_of_eq h.1.symm

def jmName : Str := "john smith".toList
def jsName : Str := "john smythe".toList
def jmDisp : Str := "John Smith".toList
def jsDisp : Str := "John Smythe".toList
def q1Str : Str := "john smith please".toList
def q2Str : Str := "tell me about john".toList

def q3Str : Str := "smith x".toList

/-- C3.  Entity matcher over clean name keys.  Concretely: for candidates
"john smith" and "john smythe", the query "john smith please" returns the
single match "john smith" in Phase A (the longest substring candidate),
while the query "tell me about john" returns no single winner (both
candidates match exactly one token and the total-token tie does not
disambiguate) and the agent's ranked ambiguous-candidate list then returns
both, capped at 5.  In general: whenever some nonempty candidate occurs as a
contiguous substring of the lower-cased query, `find_best_name_in_text`
returns such a substring candidate of maximal length; when no candidate does
(Phase B), a single candidate is returned only if its matched-token count
strictly exceeds that of every other scored candidate; and the candidate
list never exceeds its cap. -/
theorem c3_entity_matcher :
    (findBestName [jmName, jsName] q1Str = some jmName)
    ∧ (findBestName [jmName, jsName] q2Str = none)
    ∧ (listNameCandidates [(jmName, jmDisp), (jsName, jsDisp)] q2Str 5 = [jmDisp, jsDisp])
    ∧ (∀ (names : List Str) (text : Str),
        (∃ n, n ∈ names ∧ n.isEmpty = false ∧ containsSub (lowerStr text) n = true) →
        ∃ b, findBestName names text = some b ∧ b ∈ names
          ∧ containsSub (lowerStr text) b = true
          ∧ ∀ n, n ∈ names → n.isEmpty = false → containsSub (lowerStr text) n = true →
              n.length ≤ b.length)
    ∧ (∀ (names : List Str) (text : Str) (b : Str),
        (∀ n, n ∈ names → ¬(n.isEmpty = false ∧ containsSub (lowerStr text) n = true)) →
        findBestName names text = some b →
        ∃ m tot, (b, m, tot) ∈ tokenHits names (lowerStr text)
          ∧ ∀ p, p ∈ tokenHits names (lowerStr text) → p.1 ≠ b → p.2.1 < m)
    ∧ (∀ (pairs : List (Str × Str)) (text : Str) (lim : Nat),
        (listNameCandidates pairs text lim).length ≤ lim) := by
  refine ⟨by decide, by decide, by decide, ?_, ?_, ?_⟩
  · intro names text hex
    obtain ⟨b, hb⟩ := phaseAGo_progress (lowerStr text) names none hex
    have hped := phaseAGo_pedigree (lowerStr text) names none b hb
    refine ⟨b, ?_, ?_, ?_, ?_⟩
    · simp only [findBestName, hb]
    · rcases hped with h | h
      · exact Option.noConfusion h
      · exact h.1
    · rcases hped with h | h
      · exact Option.noConfusion h
      · exact h.2.2
    · exact phaseAGo_dominates (lowerStr text) names none b hb
  · intro names text b hA hres
    have hnone := phaseAGo_none (lowerStr text) names hA
    have hsorted := List.sorted_insertionSort hitGE (tokenHits names (lowerStr text))
    simp only [findBestName, hnone] at hres
    cases hs : List.insertionSort hitGE (tokenHits names (lowerStr text)) with
    | nil =>
      rw [hs] at hres
      exact Option.noConfusion hres
    | cons h1 rest =>
      cases rest with
      | nil =>
        rw [hs] at hres
        simp only [phaseBPick] at hres
        have hb : h1.1 = b := Option.some.inj hres
        have hmem : h1 ∈ tokenHits names (lowerStr text) := by
          refine (List.mem_insertionSort hitGE).mp ?_
          rw [hs]
          exact List.mem_cons_self _ _
        subst hb
        refine ⟨h1.2.1, h1.2.2, hmem, ?_⟩
        intro p hp hpne
        have hpmem : p ∈ List.insertionSort hitGE (tokenHits names (lowerStr text)) :=
          (List.mem_insertionSort hitGE).mpr hp
        rw [hs] at hpmem
        have hph : p = h1 := by simpa using hpmem
        exact absurd (congrArg Prod.fst hph) hpne
      | cons h2 rest2 =>
        rw [hs] at hres
        simp only [phaseBPick] at hres
        by_cases hlt : h2.2.1 < h1.2.1
        · rw [if_pos hlt] at hres
          have hb : h1.1 = b := Option.some.inj hres
          have hmem : h1 ∈ tokenHits names (lowerStr text) := by
            refine (List.mem_insertionSort hitGE).mp ?_
            rw [hs]
            exact List.mem_cons_self _ _
          rw [hs] at hsorted
          subst hb
          refine ⟨h1.2.1, h1.2.2, hmem, ?_⟩
          intro p hp hpne
          have hpmem : p ∈ h1 :: h2 :: rest2 := by
            rw [← hs]
            exact (List.mem_insertionSort hitGE).mpr hp
          rcases List.mem_cons.mp hpmem with rfl | hpmem2
          · exact absurd rfl hpne
          · rcases List.mem_cons.mp hpmem2 with rfl | hpmem3
            · exact hlt
            · have hrel : hitGE h2 p :=
                (List.sorted_cons.mp (List.sorted_cons.mp hsorted).2).1 p hpmem3
              exact Nat.lt_of_le_of_lt (hitGE_le hrel) hlt
        · rw [if_neg hlt] at hres
          exact Option.noConfusion hres
  · intro pairs text lim
    simp only [listNameCandidates, List.length_map, List.length_take]
    exact Nat.min_le_left _ _

/-- C3 witness: the Phase A statement instantiated at the concrete query
"john smith please", and the Phase B statement at the concrete query
"smith x" (no substring candidate, a unique strict-majority winner). -/
theorem c3_entity_matcher_witness :
    (∃ b, findBestName [jmName, jsName] q1Str = some b ∧ b ∈ [jmName, jsName]
      ∧ containsSub (lowerStr q1Str) b = true
      ∧ ∀ n, n ∈ [jmName, jsName] → n.isEmpty = false →
          containsSub (lowerStr q1Str) n = true → n.length ≤ b.length)
    ∧ (∃ m tot, (jmName, m, tot) ∈ tokenHits [jmName, jsName] (lowerStr q3Str)
      ∧ ∀ p, p ∈ tokenHits [jmName, jsName] (lowerStr q3Str) → p.1 ≠ jmName → p.2.1 < m) := by
  constructor
  · exact c3_entity_matcher.2.2.2.1 [jmName, jsName] q1Str
      ⟨jmName, by decide, by decide, by decide⟩
  · exact c3_entity_matcher.2.2.2.2.1 [jmName, jsName] q3Str jmName
      (by decide) (by decide)

/-! ## Staff directory column resolver
(`autoagent/agents/staff_directory_agent.py`, `COLUMN_ALIASES_SINGLE`,
`COLUMN_ALIAS_GROUPS`, `_columns_present` and `infer_fields_from_text`) -/

/-- `COLUMN_ALIASES_SINGLE`, in source (dict insertion) order. -/
def columnAliasesSingle : List (Str × Str) :=
  [ ("psa licence".toList, "PSA Licence".toList),
    ("psa license".toList, "PSA Licence".toList),
    ("psa".toList, "PSA Licence".toList),
    ("psa number".toList, "PSA Licence".toList),
    ("psa no".toList, "PSA Licence".toList),
    ("psa id".toList, "PSA Licence".toList),
    ("psa licence expiry date".toList, "PSA Licence exp. DD/MM/YYYY".toList),
    ("psa licence expiry".toList, "PSA Licence exp. DD/MM/YYYY".toList),
    ("psa license expiry".toList, "PSA Licence exp. DD/MM/YYYY".toList),
    ("psa expiry".toList, "PSA Licence exp. DD/MM/YYYY".toList),
    ("expiry".toList, "PSA Licence exp. DD/MM/YYYY".toList),
    ("expiration".toList, "PSA Licence exp. DD/MM/YYYY".toList),
    ("contact number".toList, "Contact Number".toList),
    ("emergency contact".toList, "Contact Number in case of Emergency".toList),
    ("first aid".toList, "First Aid Certified".toList),
    ("first aid expiry".toList, "Date of first Aid expire".toList),
    ("badge".toList, "Received Access Badge".toList),
    ("radio earpiece".toList, "Radio Earpiece Received".toList),
    ("safepass".toList, "Safepass".toList),
    ("ert training".toList, "Emergency Response Team (ERT) Training".toList),
    ("manual handling".toList, "Manual Handling Training".toList),
    ("navy coat".toList, "Navy Blue winter Coat Received 2024".toList),
    ("bgu sign off".toList, "BGU Sign Off".toList),
    ("l-dap".toList, "L-Dap".toList),
    ("ldap".toList, "L-Dap".toList),
    ("pin".toList, "Employee PIN (0****)".toList),
    ("employee pin".toList, "Employee PIN (0****)".toList) ]

/-- `COLUMN_ALIAS_GROUPS`, in source order. -/
def columnAliasGroups : List (Str × List Str) :=
  [ ("psa".toList, ["PSA Licence".toList, "PSA Licence exp. DD/MM/YYYY".toList]),
    ("psa licence".toList, ["PSA Licence".toList, "PSA Licence exp. DD/MM/YYYY".toList]),
    ("psa license".toList, ["PSA Licence".toList, "PSA Licence exp. DD/MM/YYYY".toList]) ]

/-- `explicit_expiry_hits`: the aliases whose key contains "expiry" or
"expiration", kept in vocabulary order, with the column each maps to. -/
def explicitExpiryHits : List (Str × Str) :=
  columnAliasesSingle.filter
    (fun kv => containsSub kv.1 ("expiry".toList) || containsSub kv.1 ("expiration".toList))

/-- `_col_lc_map` lookup: maps `c.strip().lower()` to `c`; the Python dict
comprehension keeps the LAST column on key collisions. -/
def colLcLookup (cols : List Str) (key : Str) : Option Str :=
  (cols.filter (fun c => lowerStr (stripStr c) == key)).getLast?

/-- `StaffDirectory._columns_present` (the `if real:` test also drops an
empty-named column, which is falsy in Python). -/
def columnsPresent (cols : List Str) (wanted : List Str) : List Str :=
  wanted.filterMap (fun w =>
    match colLcLookup cols (lowerStr (stripStr w)) with
    | some c => if c.isEmpty then none else some c
    | none => none)

/-- `StaffDirectory.infer_fields_from_text`: explicit expiry aliases first,
then group aliases, then single aliases, then the fallback scan for an
"exp"/"expiry"-named column. -/
def inferFields (cols : List Str) (text : Str) : List Str :=
  let t := lowerStr text
  match explicitExpiryHits.find? (fun kv => containsSub t kv.1) with
  | some kv => columnsPresent cols [kv.2]
  | none =>
    match columnAliasGroups.find? (fun kv => containsSub t kv.1) with
    | some kv => columnsPresent cols kv.2
    | none =>
      let hits := (columnAliasesSingle.filter (fun kv => containsSub t kv.1)).map
        (fun kv => kv.2)
      if hits.isEmpty then
        match cols.find? (fun c => containsSub (lowerStr c) ("exp".toList)
            || containsSub (lowerStr c) ("expiry".toList)) with
        | some c => columnsPresent cols [c]
        | none => []
      else columnsPresent cols hits

theorem columnsPresent_single_len (cols : List Str) (w : Str) :
    (columnsPresent cols [w]).length ≤ 1 := by
  cases h : colLcLookup cols (lowerStr (stripStr w)) with
  | none => simp [columnsPresent, h]
  | some c =>
    by_cases hc : c = []
    · simp [columnsPresent, h, hc]
    · simp [columnsPresent, h, hc]

def staffCsvCols : List Str :=
  ["Name".toList, "PSA Licence".toList, "PSA Licence exp. DD/MM/YYYY".toList]

def c4Query : Str := "psa expiry for X".toList

def psaCol : Str := "PSA Licence".toList

def psaExpCol : Str := "PSA Licence exp. DD/MM/YYYY".toList

/-- C4.  Column resolution precedence: the text "psa expiry for X" contains
the group alias "psa" (which expands to both the PSA number column A and the
expiry column B), yet the resolver returns exactly the single expiry column
[B], because the explicit-expiry rule is checked first and returns
immediately.  In general, whenever the lowered query contains some key of
the expiry/expiration alias subset, the result is exactly the columns-present
filter of the single field mapped by the first such key in vocabulary order,
hence a list of at most one column. -/
theorem c4_expiry_rule :
    (inferFields staffCsvCols c4Query = [psaExpCol])
    ∧ (inferFields staffCsvCols c4Query ≠ [psaCol, psaExpCol])
    ∧ (containsSub (lowerStr c4Query) ("psa".toList) = true)
    ∧ (columnAliasGroups.find? (fun kv => containsSub (lowerStr c4Query) kv.1)
        = some ("psa".toList, [psaCol, psaExpCol]))
    ∧ (∀ (cols : List Str) (text : Str) (kv : Str × Str),
        explicitExpiryHits.find? (fun p => containsSub (lowerStr text) p.1) = some kv →
        inferFields cols text = columnsPresent cols [kv.2]
        ∧ (inferFields cols text).length ≤ 1) := by
  refine ⟨by decide, by decide, by decide, by decide, ?_⟩
  intro cols text kv hfind
  have heq : inferFields cols text = columnsPresent cols [kv.2] := by
    simp only [inferFields, hfind]
  refine ⟨heq, ?_⟩
  rw [heq]
  exact columnsPresent_single_len cols kv.2

/-- C4 witness: the general expiry-rule statement instantiated at the
concrete vocabulary, table columns and query. -/
theorem c4_expiry_rule_witness :
    inferFields staffCsvCols c4Query = columnsPresent staffCsvCols [psaExpCol]
    ∧ (inferFields staffCsvCols c4Query).length ≤ 1 :=
  c4_expiry_rule.2.2.2.2 staffCsvCols c4Query ("psa expiry".toList, psaExpCol) (by decide)

/-! ## Records, tables, and the staff cache mutation
(`StaffDirectory.__init__`, `_clean_name`, `_load_df_cached`)

`_load_df_ttl` returns the very DataFrame object held by the `lru_cache`
slot, and `__init__` then executes
`self.df["__clean_name__"] = self.df["Name"].apply(_clean_name)`,
which is an in-place column assignment on that shared cached object.
`staffInit` is the table transformation this assignment performs. -/

/-- A row: an ordered association list from column name to cell value. -/
abbrev Record := List (Str × Str)

/-- A pandas-style table: the column index plus the rows. -/
structure Table where
  cols : List Str
  rows : List Record
deriving DecidableEq, Repr

/-- `row.get(k, "")`: the first entry with this key, default empty. -/
def getField : Record → Str → Str
  | [], _ => []
  | (k0, v0) :: rest, k => if k0 = k then v0 else getField rest k

/-- Pandas column assignment at the row level: overwrite the entry with this
key in place, or append a new one at the end. -/
def setField : Record → Str → Str → Record
  | [], k, v => [(k, v)]
  | (k0, v0) :: rest, k, v =>
    if k0 = k then (k, v) :: rest else (k0, v0) :: setField rest k v

/-- One match of the pattern `\s*\([^)]*\)` anchored at the head of `s`:
optional whitespace, an opening parenthesis, a greedy run of
non-close-parenthesis characters, a closing parenthesis.  Returns the
remainder after the match. -/
def matchParen (s : Str) : Option Str :=
  match s.dropWhile Char.isWhitespace with
  | '(' :: r1 =>
    match r1.dropWhile (fun c => !(c == ')')) with
    | ')' :: r2 => some r2
    | _ => none
  | _ => none

/-- Fuel-driven scan for `removeParens` (each step consumes at least one
character, so the string length is enough fuel). -/
def removeParensGo : Nat → Str → Str
  | 0, s => s
  | _ + 1, [] => []
  | fuel + 1, c :: cs =>
    match matchParen (c :: cs) with
    | some rest => removeParensGo fuel rest
    | none => c :: removeParensGo fuel cs

/-- `re.sub(r"\s*\([^)]*\)", "", name)`: delete each leftmost,
non-overlapping parenthetical (with its leading whitespace). -/
def removeParens (s : Str) : Str := removeParensGo s.length s

/-- `_clean_name`: strip parentheticals, collapse whitespace runs to single
spaces, strip, lower-case. -/
def cleanName (name : Str) : Str :=
  lowerStr (joinSpaces (splitRuns (fun c => !c.isWhitespace) (removeParens name)))

def nameColKey : Str := "Name".toList

def cleanColKey : Str := "__clean_name__".toList

/-- `StaffDirectory.__init__` minus the I/O: raise unless a "Name" column
exists, then assign the derived `__clean_name__` column into the (shared,
cached) table object.  The result is that table object after the in-place
assignment. -/
def staffInit (df : Table) : Except Unit Table :=
  if nameColKey ∈ df.cols then
    Except.ok
      (Table.mk
        (if cleanColKey ∈ df.cols then df.cols else df.cols ++ [cleanColKey])
        (df.rows.map (fun r => setField r cleanColKey (cleanName (getField r nameColKey)))))
  else Except.error ()

theorem getField_setField_ne (r : Record) (k k2 v : Str) (hne : k2 ≠ k) :
    getField (setField r k2 v) k = getField r k := by
  induction r with
  | nil => simp [setField, getField, hne]
  | cons p rest ih =>
    obtain ⟨k0, v0⟩ := p
    by_cases h0 : k0 = k2
    · subst h0
      simp [setField, getField, hne]
    · simp only [setField, if_neg h0]
      by_cases h1 : k0 = k
      · simp [getField, h1]
      · simp [getField, h1, ih]

theorem setField_setField (r : Record) (k v v2 : Str) :
    setField (setField r k v) k v2 = setField r k v2 := by
  induction r with
  | nil => simp [setField]
  | cons p rest ih =>
    obtain ⟨k0, v0⟩ := p
    by_cases h0 : k0 = k
    · simp [setField, h0]
    · simp [setField, h0, ih]

theorem nameCol_ne_cleanCol : nameColKey ≠ cleanColKey := by decide

def c5Table : Table := Table.mk [nameColKey] [[(nameColKey, "Ann".toList)]]

def c5Mutated : Table :=
  Table.mk [nameColKey, cleanColKey]
    [[(nameColKey, "Ann".toList), (cleanColKey, "ann".toList)]]

/-- C5 counterexample.  The claim states that no agent invocation mutates
the cached table value in place, its records and column set staying
unchanged.  But `StaffDirectory.__init__` assigns the `__clean_name__`
column into the DataFrame object returned by the cache: for a cached table
with only a "Name" column, after one agent invocation the shared object has
gained a `__clean_name__` column — a different column set and a different
table value. -/
theorem c5_cache_mutation_counterexample :
    staffInit c5Table = Except.ok c5Mutated
    ∧ c5Mutated ≠ c5Table
    ∧ c5Mutated.cols ≠ c5Table.cols := by
  refine ⟨rfl, by decide, by decide⟩

/-- C5 (amended).  The only in-place mutation of the cached table is the
idempotent assignment of the derived `__clean_name__` helper column by
`StaffDirectory.__init__`: the column set gains exactly `__clean_name__`,
every other column keeps exactly its values in every row, and repeating the
initialisation on the already-mutated table changes nothing.  Apart from
this, the cache entry is only ever replaced wholesale by a fresh load. -/
theorem c5_cache_mutation_amended (df df2 : Table)
    (h : staffInit df = Except.ok df2) :
    (∀ c, c ∈ df2.cols ↔ (c ∈ df.cols ∨ c = cleanColKey))
    ∧ (∀ k, k ≠ cleanColKey →
        df2.rows.map (fun r => getField r k) = df.rows.map (fun r => getField r k))
    ∧ staffInit df2 = Except.ok df2 := by
  by_cases hname : nameColKey ∈ df.cols
  · simp only [staffInit, if_pos hname] at h
    have hdf2 := (Except.ok.inj h).symm
    subst hdf2
    refine ⟨?_, ?_, ?_⟩
    · intro c
      by_cases hclean : cleanColKey ∈ df.cols
      · simp only [if_pos hclean]
        constructor
        · exact fun hm => Or.inl hm
        · rintro (hm | rfl)
          · exact hm
          · exact hclean
      · simp only [if_neg hclean, List.mem_append, List.mem_singleton]
    · intro k hk
      simp only [List.map_map]
      refine List.map_congr_left ?_
      intro r _
      exact getField_setField_ne r k cleanColKey _ (fun he => hk he.symm)
    · have hname2 : nameColKey ∈
          (if cleanColKey ∈ df.cols then df.cols else df.cols ++ [cleanColKey]) := by
        by_cases hclean : cleanColKey ∈ df.cols
        · simpa [if_pos hclean] using hname
        · simp only [if_neg hclean, List.mem_append]
          exact Or.inl hname
      have hclean2 : cleanColKey ∈
          (if cleanColKey ∈ df.cols then df.cols else df.cols ++ [cleanColKey]) := by
        by_cases hclean : cleanColKey ∈ df.cols
        · simpa [if_pos hclean] using hclean
        · simp [if_neg hclean]
      simp only [staffInit, if_pos hname2, if_pos hclean2]
      congr 1
      refine Table.mk.injEq _ _ _ _ ▸ ?_
      refine ⟨rfl, ?_⟩
      simp only [List.map_map]
      refine List.map_congr_left ?_
      intro r _
      have hget : getField (setField r cleanColKey (cleanName (getField r nameColKey)))
          nameColKey = getField r nameColKey :=
        getField_setField_ne r nameColKey cleanColKey _ (Ne.symm nameCol_ne_cleanCol)
      simp only [Function.comp]
      rw [hget]
      exact setField_setField r cleanColKey _ _
  · simp only [staffInit, if_neg hname] at h
    exact Except.noConfusion h

/-- C5 amended witness: the amended statement at the concrete one-row,
one-column table. -/
theorem c5_cache_mutation_amended_witness :
    (∀ c, c ∈ c5Mutated.cols ↔ (c ∈ c5Table.cols ∨ c = cleanColKey))
    ∧ (∀ k, k ≠ cleanColKey →
        c5Mutated.rows.map (fun r => getField r k)
          = c5Table.rows.map (fun r => getField r k))
    ∧ staffInit c5Mutated = Except.ok c5Mutated :=
  c5_cache_mutation_amended c5Table c5Mutated rfl

/-! ## Doors location matcher (`autoagent/data_access/doors.py`)

A door row is the canonical projection `_ws_to_df` produces: door id,
description, location, source tab.  The `_door_norm`/`_desc_norm`/`_loc_norm`
columns it precomputes are `_norm_text` of those fields. -/

/-- `_STOPWORDS`. -/
def doorStopwords : List Str :=
  ["where".toList, "is".toList, "are".toList, "the".toList, "a".toList,
   "an".toList, "of".toList, "for".toList, "to".toList, "at".toList,
   "in".toList, "door".toList, "reader".toList, "location".toList,
   "please".toList, "tell".toList, "me".toList, "what".toList, "which".toList]

/-- `_norm_text`: lower-case, collapse every non-alphanumeric run to a
single space, strip. -/
def normText (s : Str) : Str :=
  joinSpaces (splitRuns Char.isAlphanum (lowerStr s))

/-- `_extract_tokens`: the `[a-z0-9_]+` runs of the lowered query, minus
stopwords, split further at underscores, keeping tokens longer than one
character. -/
def extractTokens (q : Str) : List Str :=
  let raw := splitRuns (fun c => c.isAlphanum || c = '_') (lowerStr q)
  let toks := raw.filter (fun t => !(doorStopwords.contains t))
  let flat := (toks.map (fun t => splitRuns (fun c => !(c == '_')) t)).flatten
  flat.filter (fun t => decide (1 < t.length))

/-- Fuel-driven worker for `subRuns`. -/
def subRunsGo (p : Char → Bool) (rep : Char) : Nat → Str → Str
  | 0, s => s
  | _ + 1, [] => []
  | fuel + 1, c :: cs =>
    if p c then rep :: subRunsGo p rep fuel (cs.dropWhile p)
    else c :: subRunsGo p rep fuel cs

/-- `re.sub(class+, rep, s)`: replace each maximal run of `p`-characters by
the single character `rep`. -/
def subRuns (p : Char → Bool) (rep : Char) (s : Str) : Str :=
  subRunsGo p rep s.length s

structure DoorRow where
  door : Str
  description : Str
  location : Str
  tab : Str
deriving DecidableEq, Repr

/-- The `_door_norm` column. -/
def doorNorm (r : DoorRow) : Str := normText r.door

/-- The `_desc_norm` column. -/
def descNorm (r : DoorRow) : Str := normText r.description

/-- The `_loc_norm` column. -/
def locNorm (r : DoorRow) : Str := normText r.location

/-- `combined = f"{door} {desc} {loc}"` over the normalized columns. -/
def combinedNorm (r : DoorRow) : Str :=
  doorNorm r ++ ' ' :: descNorm r ++ ' ' :: locNorm r

/-- `find_by_text`: plain case-insensitive (normalized) substring OR over
the three columns, first `limit` rows. -/
def findByText (rows : List DoorRow) (query : Str) (limit : Nat) : List DoorRow :=
  if rows.isEmpty then [] else
  if (stripStr query).isEmpty then [] else
  let qn := normText (stripStr query)
  (rows.filter (fun r =>
    containsSub (doorNorm r) qn || containsSub (descNorm r) qn
      || containsSub (locNorm r) qn)).take limit

/-- The `row_match` predicate of `find_location`. -/
def rowMatchLoc (phraseUnderscore phraseSpaces : Str) (tokens : List Str)
    (r : DoorRow) : Bool :=
  (!phraseUnderscore.isEmpty && containsSub (combinedNorm r) phraseUnderscore)
  || (!phraseSpaces.isEmpty && containsSub (combinedNorm r) phraseSpaces)
  || (tokens.all (fun t => containsSub (doorNorm r) t)
      || tokens.all (fun t => containsSub (descNorm r) t)
      || tokens.all (fun t => containsSub (locNorm r) t))
  || decide (max 2 (tokens.length - 1) ≤
      tokens.countP (fun t => containsSub (combinedNorm r) t))

/-- `find_location`: phrase and token matching for "where is ..." queries,
falling back to `find_by_text` when no usable token remains. -/
def findLocation (rows : List DoorRow) (query : Str) (limit : Nat) : List DoorRow :=
  if rows.isEmpty then [] else
  let qRaw := lowerStr (stripStr query)
  let phraseUnderscore := subRuns Char.isWhitespace '_' qRaw
  let phraseSpaces := subRuns (fun c => c == '_') ' ' qRaw
  let tokens := extractTokens qRaw
  if tokens.isEmpty then findByText rows query limit
  else (rows.filter (rowMatchLoc phraseUnderscore phraseSpaces tokens)).take limit

/-- `_wants_location` (`autoagent/agents/doors_agent.py`). -/
def wantsLocation (q : Str) : Bool :=
  let t := lowerStr q
  containsSub t ("where is".toList) || containsSub t ("location".toList)
    || beginsWith ("where ".toList) t

def c7Query : Str := "where is unsecure_corridor_no6".toList

def c7Row1 : DoorRow :=
  DoorRow.mk ("d1".toList) [] ("unsecure corridor no6".toList) ("PPK1".toList)

def c7Row2 : DoorRow :=
  DoorRow.mk ("d2".toList) [] ("UNSECURE_CORRIDOR_NO6".toList) ("PPK2".toList)

/-- C7.  Door location leniency.  The doors agent treats the query
"where is unsecure_corridor_no6" as a location query, and `find_location`
matches a row whose location field stores the phrase space-joined
("unsecure corridor no6") as well as one storing it underscore-joined and
upper-cased ("UNSECURE_CORRIDOR_NO6").  In general the row matcher accepts a
row exactly when a (lightly normalized) exact phrase occurs in the
concatenated normalized fields, or every extracted token occurs within one
single field (id, description, or location), or at least
`max(2, token_count - 1)` of the tokens occur across the concatenation. -/
theorem c7_door_location :
    (wantsLocation c7Query = true)
    ∧ (findLocation [c7Row1] c7Query 10 = [c7Row1])
    ∧ (findLocation [c7Row2] c7Query 10 = [c7Row2])
    ∧ (∀ (pu ps : Str) (tokens : List Str) (r : DoorRow),
        rowMatchLoc pu ps tokens r = true ↔
          ((pu ≠ [] ∧ containsSub (combinedNorm r) pu = true)
           ∨ (ps ≠ [] ∧ containsSub (combinedNorm r) ps = true)
           ∨ (∀ t ∈ tokens, containsSub (doorNorm r) t = true)
           ∨ (∀ t ∈ tokens, containsSub (descNorm r) t = true)
           ∨ (∀ t ∈ tokens, containsSub (locNorm r) t = true)
           ∨ max 2 (tokens.length - 1) ≤
               tokens.countP (fun t => containsSub (combinedNorm r) t))) := by
  refine ⟨by decide, by decide, by decide, ?_⟩
  intro pu ps tokens r
  simp only [rowMatchLoc, Bool.or_eq_true, Bool.and_eq_true, List.all_eq_true,
    decide_eq_true_eq, Bool.not_eq_true', List.isEmpty_eq_false, or_assoc]

/-! ## Intent router (`autoagent/agents/operations_agent.py`)

`route` captures the dispatch decision of `operations_agent`: an explicit
prefix override, a heuristic classification (door, then camera, then staff),
or the fallback cascade (which consults the door, camera and staff engines
in that order by their responses).  The regular expressions `RE_DOOR_CODE`
(`\b\d{2,4}[A-Z]\b`, case-insensitive), `RE_PURE_NUMBER`
(`^\D*(\d{2,6})\D*$`) and the staff patterns
(`\bfor\s+[A-Z][a-z]+(?:\s+[A-Z][a-z]+)+` and `\b[A-Z][a-z]+`) are
hand-compiled into the scanners below. -/

def staffKeywords : List Str :=
  ["psa".toList, "contact".toList, "pin".toList, "ldap".toList, "l-dap".toList,
   "first aid".toList, "safepass".toList, "badge".toList, "earpiece".toList,
   "emergency".toList, "licence".toList, "license".toList, "expiry".toList,
   "expiration".toList]
def cameraKeywords : List Str :=
  ["camera".toList, "cctv".toList, "flir".toList, "ppk1".toList, "ppk 1".toList,
   "ppk2".toList, "ppk 2".toList]
def doorKeywords : List Str :=
  ["door".toList, "reader".toList, "badge reader".toList, "c-cure".toList,
   "ccure".toList, "ccure 900".toList, "access".toList]

def doorCodeHere (s : Str) : Bool :=
  let run := s.takeWhile Char.isDigit
  let rest := s.dropWhile Char.isDigit
  decide (2 ≤ run.length) && decide (run.length ≤ 4) &&
    (match rest with
     | c :: rest2 =>
       c.isAlpha &&
         (match rest2 with
          | [] => true
          | c2 :: _ => !isWordChar c2)
     | [] => false)
def scanDoorCode : Bool → Str → Bool
  | _, [] => false
  | prevWord, c :: cs =>
    (!prevWord && doorCodeHere (c :: cs)) || scanDoorCode (isWordChar c) cs
def hasDoorCode (s : Str) : Bool := scanDoorCode false s

def looksLikeDoorQuery (q : Str) : Bool :=
  doorKeywords.any (fun k => containsSub (lowerStr q) k) || hasDoorCode q

def pureNumberGroup (q : Str) : Option Str :=
  match splitRuns Char.isDigit q with
  | [d] => if 2 ≤ d.length ∧ d.length ≤ 6 then some d else none
  | _ => none

def looksLikeCameraQuery (q : Str) : Bool :=
  cameraKeywords.any (fun k => containsSub (lowerStr q) k)
  || (match pureNumberGroup q with
      | some d => decide (d.length ≤ 4)
      | none => false)

def capWordHere (s : Str) : Option Str :=
  match s with
  | c :: cs =>
    if c.isUpper then
      match cs.takeWhile Char.isLower with
      | [] => none
      | _ :: _ => some (cs.dropWhile Char.isLower)
    else none
  | [] => none

def matchWsCap (s : Str) : Option Str :=
  match s.takeWhile Char.isWhitespace with
  | [] => none
  | _ :: _ => capWordHere (s.dropWhile Char.isWhitespace)

def forNameHere (s : Str) : Bool :=
  match s with
  | 'f' :: 'o' :: 'r' :: rest =>
    match matchWsCap rest with
    | some r1 => (matchWsCap r1).isSome
    | none => false
  | _ => false

def scanForName : Bool → Str → Bool
  | _, [] => false
  | prevWord, c :: cs => (!prevWord && forNameHere (c :: cs)) || scanForName (isWordChar c) cs
def hasForName (q : Str) : Bool := scanForName false q

def countCapWords : Bool → Str → Nat
  | _, [] => 0
  | prevWord, c :: cs =>
    (if !prevWord && c.isUpper &&
        (match cs with | c2 :: _ => c2.isLower | [] => false) then 1 else 0)
      + countCapWords (isWordChar c) cs
def capWordCount (q : Str) : Nat := countCapWords false q

def looksLikeStaffQuery (q : Str) : Bool :=
  staffKeywords.any (fun k => containsSub (lowerStr q) k)
  || hasForName q || decide (2 ≤ capWordCount q)

inductive Dom
  | staff
  | camera
  | door
deriving DecidableEq, Repr

inductive Route
  | pre (d : Dom) (rest : Str)
  | heur (d : Dom)
  | fb
deriving DecidableEq, Repr

def afterFirstColon : Str → Str
  | [] => []
  | ':' :: cs => cs
  | _ :: cs => afterFirstColon cs

def route (query : Str) : Route :=
  let q := stripStr query
  let lower := lowerStr q
  if beginsWith ("staff:".toList) lower then
    Route.pre Dom.staff (stripStr (afterFirstColon q))
  else if beginsWith ("camera:".toList) lower || beginsWith ("cameras:".toList) lower then
    Route.pre Dom.camera (stripStr (afterFirstColon q))
  else if beginsWith ("door:".toList) lower || beginsWith ("doors:".toList) lower then
    Route.pre Dom.door (stripStr (afterFirstColon q))
  else if looksLikeDoorQuery q then Route.heur Dom.door
  else if looksLikeCameraQuery q then Route.heur Dom.camera
  else if looksLikeStaffQuery q then Route.heur Dom.staff
  else Route.fb

/-- All five explicit prefix tests of `operations_agent`, as one flag. -/
def hasAgentPre (q : Str) : Bool :=
  beginsWith ("staff:".toList) (lowerStr (stripStr q))
  || beginsWith ("camera:".toList) (lowerStr (stripStr q))
  || beginsWith ("cameras:".toList) (lowerStr (stripStr q))
  || beginsWith ("door:".toList) (lowerStr (stripStr q))
  || beginsWith ("doors:".toList) (lowerStr (stripStr q))

theorem splitRunsGo_all (p : Char → Bool) : ∀ (s cur : Str), s.all p = true →
    splitRunsGo p cur s =
      if (cur.reverse ++ s).isEmpty then [] else [cur.reverse ++ s] := by
  intro s
  induction s with
  | nil =>
    intro cur _
    simp [splitRunsGo]
  | cons c cs ih =>
    intro cur hall
    rw [List.all_cons, Bool.and_eq_true] at hall
    simp only [splitRunsGo, hall.1, if_true]
    rw [ih (c :: cur) hall.2]
    simp [List.reverse_cons, List.append_assoc]

theorem splitRuns_all_digits (s : Str) (hne : s ≠ [])
    (hall : s.all Char.isDigit = true) : splitRuns Char.isDigit s = [s] := by
  unfold splitRuns
  rw [splitRunsGo_all Char.isDigit s [] hall]
  simp [hne]

/-- C8 counterexample.  The claim says a bare-number query of at most 4
digits with no door signal dispatches the camera engine.  The query "7" is a
bare number of one (hence at most 4) digits with no door signal, yet
`RE_PURE_NUMBER` requires 2–6 digits, so no heuristic fires and the router
falls through to the fallback cascade — which consults the door engine
first, not the camera engine. -/
theorem c8_router_counterexample :
    (("7".toList).all Char.isDigit = true)
    ∧ ("7".toList).length ≤ 4
    ∧ hasAgentPre ("7".toList) = false
    ∧ looksLikeDoorQuery ("7".toList) = false
    ∧ route ("7".toList) = Route.fb
    ∧ Route.fb ≠ Route.heur Dom.camera := by
  exact ⟨by decide, by decide, by decide, by decide, by decide, by decide⟩

/-- C8 (amended).  The router first applies the explicit prefix overrides
(shown here for "staff:", which strips the prefix and dispatches the staff
engine directly); otherwise the heuristics run strictly in the order door,
camera, staff, so any prefix-free query containing a door-code token (2–4
digits followed by a letter, word-bounded) dispatches the door engine
regardless of capitalized words, and a prefix-free bare-number query of 2 to
4 digits with no door signal dispatches the camera engine. -/
theorem c8_router_amended :
    (∀ q : Str, beginsWith ("staff:".toList) (lowerStr (stripStr q)) = true →
      route q = Route.pre Dom.staff (stripStr (afterFirstColon (stripStr q))))
    ∧ (∀ q : Str, hasAgentPre q = false → hasDoorCode (stripStr q) = true →
      route q = Route.heur Dom.door)
    ∧ (∀ q : Str, hasAgentPre q = false →
      looksLikeDoorQuery (stripStr q) = false →
      (stripStr q).all Char.isDigit = true →
      2 ≤ (stripStr q).length → (stripStr q).length ≤ 4 →
      route q = Route.heur Dom.camera) := by
  refine ⟨?_, ?_, ?_⟩
  · intro q h
    simp only [route, h, if_true]
  · intro q hpre hcode
    simp only [hasAgentPre, Bool.or_eq_false_iff] at hpre
    obtain ⟨⟨⟨⟨h1, h2⟩, h3⟩, h4⟩, h5⟩ := hpre
    have hdoor : looksLikeDoorQuery (stripStr q) = true := by
      simp [looksLikeDoorQuery, hcode]
    simp only [route, h1, h2, h3, h4, h5, hdoor, Bool.or_self, Bool.false_or]
    simp
  · intro q hpre hdoor hdig hlen2 hlen4
    simp only [hasAgentPre, Bool.or_eq_false_iff] at hpre
    obtain ⟨⟨⟨⟨h1, h2⟩, h3⟩, h4⟩, h5⟩ := hpre
    have hne : stripStr q ≠ [] := by
      intro he
      rw [he] at hlen2
      exact absurd hlen2 (by decide)
    have hgroup : pureNumberGroup (stripStr q) = some (stripStr q) := by
      simp only [pureNumberGroup, splitRuns_all_digits (stripStr q) hne hdig]
      rw [if_pos ⟨hlen2, Nat.le_trans hlen4 (by decide)⟩]
    have hcam : looksLikeCameraQuery (stripStr q) = true := by
      simp [looksLikeCameraQuery, hgroup, hlen4]
    simp only [route, h1, h2, h3, h4, h5, hdoor, hcam, Bool.or_self, Bool.false_or]
    simp

/-- C8 amended witness: the prefix override at "staff: psa Ann", the door
precedence at "032E John Smith" (a door-code token plus two capitalized
words), and the camera heuristic at the bare number "204". -/
theorem c8_router_amended_witness :
    route ("staff: psa Ann".toList)
      = Route.pre Dom.staff (stripStr (afterFirstColon (stripStr ("staff: psa Ann".toList))))
    ∧ route ("032E John Smith".toList) = Route.heur Dom.door
    ∧ route ("204".toList) = Route.heur Dom.camera := by
  refine ⟨c8_router_amended.1 _ (by decide),
          c8_router_amended.2.1 _ (by decide) (by decide),
          c8_router_amended.2.2 _ (by decide) (by decide) (by decide) (by decide)
            (by decide)⟩

/-! ## Camera search (`autoagent/data_access/cameras.py`)

The Google-Sheets rows (after `_read_one` header-stripping and `__site__`
labelling) are modelled by `Table`.  The regular expressions
`\b(\d{1,6})\b` (`_digits_from_query`) and
`(?:^|[^0-9])(#[ ]*\d{1,4}|\(\s*\d{1,4}\s*\)|\b\d{1,4}\b)`
(`_extract_cam_number`) are hand-compiled into the scanners below.  The
pandas `.str.contains` mask is modelled for literal patterns (no regex
metacharacters), which covers every property stated here. -/

def siteColKey : Str := "__site__".toList

def pickColumn (cols cands : List Str) : Option Str :=
  match cands.find? (fun cand => cols.any (fun c => lowerStr c == lowerStr cand)) with
  | some cand => (cols.filter (fun c => lowerStr c == lowerStr cand)).getLast?
  | none =>
    cols.find? (fun c => cands.any (fun cand => containsSub (lowerStr c) (lowerStr cand)))

def numberCands : List Str :=
  ["Camera Number".toList, "Number".toList, "#".toList, "ID".toList,
   "Cam Number".toList, "Cam No".toList, "Camera #".toList, "Camera ID".toList]

def nameCands : List Str :=
  ["Camera Name".toList, "Name".toList, "Description".toList,
   "Camera Description".toList, "Cam Name".toList, "Cam Description".toList,
   "Title".toList]

def parseSite (q : Str) : Option Str :=
  let t := lowerStr q
  if containsSub t ("ppk1".toList) || containsSub t ("ppk 1".toList) then
    some ("PPK1".toList)
  else if containsSub t ("ppk2".toList) || containsSub t ("ppk 2".toList) then
    some ("PPK2".toList)
  else none

def digitsHere6 (s : Str) : Option Str :=
  let run := s.takeWhile Char.isDigit
  let rest := s.dropWhile Char.isDigit
  if 1 ≤ run.length ∧ run.length ≤ 6 then
    match rest with
    | [] => some run
    | c :: _ => if isWordChar c then none else some run
  else none

def scanDigits6 : Bool → Str → Option Str
  | _, [] => none
  | prevWord, c :: cs =>
    match (if !prevWord then digitsHere6 (c :: cs) else none) with
    | some d => some d
    | none => scanDigits6 (isWordChar c) cs

def digitsFromQuery (q : Str) : Option Str := scanDigits6 false q

def extractAlt1 (s : Str) : Option Str :=
  match s with
  | '#' :: r =>
    let r2 := r.dropWhile (fun c => c == ' ')
    let run := r2.takeWhile Char.isDigit
    if run.isEmpty then none else some (run.take 4)
  | _ => none

def extractAlt2 (s : Str) : Option Str :=
  match s with
  | '(' :: r =>
    let r1 := r.dropWhile Char.isWhitespace
    let run := r1.takeWhile Char.isDigit
    let r3 := (r1.dropWhile Char.isDigit).dropWhile Char.isWhitespace
    if 1 ≤ run.length ∧ run.length ≤ 4 then
      match r3 with
      | ')' :: _ => some run
      | _ => none
    else none
  | _ => none

def extractAlt3 (prevWord : Bool) (s : Str) : Option Str :=
  if prevWord then none
  else
    let run := s.takeWhile Char.isDigit
    let rest := s.dropWhile Char.isDigit
    if 1 ≤ run.length ∧ run.length ≤ 4 then
      match rest with
      | [] => some run
      | c :: _ => if isWordChar c then none else some run
    else none

def extractHere (prevWord : Bool) (s : Str) : Option Str :=
  match extractAlt1 s with
  | some d => some d
  | none =>
    match extractAlt2 s with
    | some d => some d
    | none => extractAlt3 prevWord s

def scanExtract : Bool → Bool → Str → Option Str
  | _, _, [] => none
  | prevDigit, prevWord, c :: cs =>
    match (if !prevDigit then extractHere prevWord (c :: cs) else none) with
    | some d => some d
    | none => scanExtract c.isDigit (isWordChar c) cs

def extractCamNumber (t : Str) : Option Str := scanExtract false false t

structure CamHit where
  site : Str
  number : Str
  name : Str
  row : Record
deriving DecidableEq, Repr

def camKey (h : CamHit) : Str × Str × Str := (h.site, h.number, h.name)

def camRowHit (wanted : Option Str) (colNum colName : Option Str) (r : Record) : CamHit :=
  let site := getField r siteColKey
  let camNo :=
    match wanted with
    | some d => d
    | none =>
      let n1 := match colNum with
        | some c => extractCamNumber (getField r c)
        | none => none
      let n2 := match n1 with
        | some d => some d
        | none =>
          match colName with
          | some c => extractCamNumber (getField r c)
          | none => none
      n2.getD []
  let nameVal :=
    let v1 := match colName with
      | some c => stripStr (getField r c)
      | none => ([] : Str)
    if v1.isEmpty then
      match colNum with
      | some c => stripStr (getField r c)
      | none => v1
    else v1
  CamHit.mk site camNo nameVal r

def buildNormal (wanted : Option Str) (colNum colName : Option Str) :
    List (Str × Str × Str) → List Record → List CamHit
  | _, [] => []
  | seen, r :: rs =>
    let h := camRowHit wanted colNum colName r
    if seen.contains (camKey h) then buildNormal wanted colNum colName seen rs
    else h :: buildNormal wanted colNum colName (camKey h :: seen) rs

def buildUnusualRow (wanted : Option Str) (ql : Str) (r : Record) :
    List (Str × Str × Str) → List Str → List CamHit × List (Str × Str × Str)
  | seen, [] => ([], seen)
  | seen, col :: cols =>
    let hs := stripStr col
    let vs := stripStr (getField r col)
    if hs.isEmpty && vs.isEmpty then buildUnusualRow wanted ql r seen cols
    else if containsSub (lowerStr hs) ql || containsSub (lowerStr vs) ql then
      let camNo :=
        match wanted with
        | some d => d
        | none =>
          match extractCamNumber hs with
          | some d => d
          | none =>
            match extractCamNumber vs with
            | some d => d
            | none => []
      let disp := if vs.length ≤ hs.length then hs else vs
      let key : Str × Str × Str := (getField r siteColKey, camNo, disp)
      if seen.contains key then buildUnusualRow wanted ql r seen cols
      else
        let res := buildUnusualRow wanted ql r (key :: seen) cols
        (CamHit.mk (getField r siteColKey) camNo disp r :: res.1, res.2)
    else buildUnusualRow wanted ql r seen cols

def buildUnusual (wanted : Option Str) (ql : Str) (cols : List Str) :
    List (Str × Str × Str) → List Record → List CamHit
  | _, [] => []
  | seen, r :: rs =>
    let res := buildUnusualRow wanted ql r seen cols
    res.1 ++ buildUnusual wanted ql cols res.2 rs

/-- The result-row construction of `search`: the normal layout when a
number or name column was inferred, else the header/value fallback
layout. -/
def camBuild (wanted : Option Str) (colNum colName : Option Str) (ql : Str)
    (cols : List Str) (hits : List Record) : List CamHit :=
  if colNum.isSome || colName.isSome then
    buildNormal wanted colNum colName [] hits
  else buildUnusual wanted ql cols [] hits

/-- The hit rows `search` builds from: empty on an empty table or empty
query, else the site-filtered rows passing the number/name-column mask, or
all-column fallback scan when that mask matches nothing.  (The code's
explicit `return []` on an empty hit set is absorbed: both result builders
return the empty list on an empty hit list.) -/
def camSearchHits (tbl : Table) (query : Str) : List Record :=
  if tbl.rows.isEmpty then [] else
  if (stripStr query).isEmpty then [] else
  let q := stripStr query
  let rows :=
    match parseSite q with
    | some site => tbl.rows.filter (fun r => getField r siteColKey == site)
    | none => tbl.rows
  let colNum := pickColumn tbl.cols numberCands
  let colName := pickColumn tbl.cols nameCands
  let ql := lowerStr q
  let maskRow := fun (r : Record) =>
    (match colNum with
     | some c => !rows.isEmpty && containsSub (lowerStr (getField r c)) ql
     | none => false)
    || (match colName with
        | some c => !rows.isEmpty && containsSub (lowerStr (getField r c)) ql
        | none => false)
  let hits0 := rows.filter maskRow
  if hits0.isEmpty then
    rows.filter (fun r => r.any (fun p => containsSub (lowerStr p.2) ql))
  else hits0

/-- `search` before the final `out[: max(1, limit)]` slice. -/
def camSearchOut (tbl : Table) (query : Str) : List CamHit :=
  camBuild (digitsFromQuery (stripStr query)) (pickColumn tbl.cols numberCands)
    (pickColumn tbl.cols nameCands) (lowerStr (stripStr query)) tbl.cols
    (camSearchHits tbl query)

/-- `search`: the constructed rows, deduplicated in construction order and
capped at `max(1, limit)`. -/
def camSearch (tbl : Table) (query : Str) (limit : Int) : List CamHit :=
  (camSearchOut tbl query).take (max 1 limit).toNat

def c6Table : Table :=
  Table.mk [("Camera Name".toList), siteColKey]
    [[(("Camera Name".toList), ("door 1234567 area (389)".toList)),
      (siteColKey, ("PPK1".toList))]]

def c10Table : Table :=
  Table.mk [("Camera Number".toList), ("Camera Name".toList), siteColKey]
    [[(("Camera Number".toList), ("204".toList)),
      (("Camera Name".toList), ("Gate".toList)),
      (siteColKey, ("PPK1".toList))]]

theorem buildNormal_number (d : Str) (cn cm : Option Str) :
    ∀ (rs : List Record) (seen : List (Str × Str × Str)) (h : CamHit),
      h ∈ buildNormal (some d) cn cm seen rs → h.number = d := by
  intro rs
  induction rs with
  | nil =>
    intro seen h hm
    simp [buildNormal] at hm
  | cons r rs ih =>
    intro seen h hm
    simp only [buildNormal] at hm
    split at hm
    · exact ih _ h hm
    · rcases List.mem_cons.mp hm with rfl | hm2
      · rfl
      · exact ih _ h hm2

theorem buildUnusualRow_number (d : Str) (ql : Str) (r : Record) :
    ∀ (cols : List Str) (seen : List (Str × Str × Str)) (h : CamHit),
      h ∈ (buildUnusualRow (some d) ql r seen cols).1 → h.number = d := by
  intro cols
  induction cols with
  | nil =>
    intro seen h hm
    simp [buildUnusualRow] at hm
  | cons col cols ih =>
    intro seen h hm
    simp only [buildUnusualRow] at hm
    split at hm
    · exact ih _ h hm
    · split at hm
      · split at hm
        · split at hm
          · exact ih _ h hm
          · dsimp only at hm
            rcases List.mem_cons.mp hm with rfl | hm2
            · rfl
            · exact ih _ h hm2
        · split at hm
          · exact ih _ h hm
          · dsimp only at hm
            rcases List.mem_cons.mp hm with rfl | hm2
            · rfl
            · exact ih _ h hm2
      · exact ih _ h hm

theorem buildUnusual_number (d : Str) (ql : Str) (cols : List Str) :
    ∀ (rs : List Record) (seen : List (Str × Str × Str)) (h : CamHit),
      h ∈ buildUnusual (some d) ql cols seen rs → h.number = d := by
  intro rs
  induction rs with
  | nil =>
    intro seen h hm
    simp [buildUnusual] at hm
  | cons r rs ih =>
    intro seen h hm
    simp only [buildUnusual] at hm
    rcases List.mem_append.mp hm with hm1 | hm2
    · exact buildUnusualRow_number d ql r cols _ h hm1
    · exact ih _ h hm2

/-- C6 counterexample.  The claim covers every query that contains a number.
The query "1234567" is purely a number, but `_digits_from_query` only
recognises standalone runs of one to six digits, so nothing is forced and
the returned record's camera number is "389" — extracted from the embedded
"(389)" in the row's own descriptive text — although the query contained
digits. -/
theorem c6_number_override_counterexample :
    (("1234567".toList).all Char.isDigit = true ∧ ("1234567".toList) ≠ [])
    ∧ digitsFromQuery ("1234567".toList) = none
    ∧ (camSearch c6Table ("1234567".toList) 10).map CamHit.number = [("389".toList)]
    ∧ containsSub (getField (c6Table.rows.headD []) ("Camera Name".toList))
        ("389".toList) = true
    ∧ ("389".toList) ≠ ("1234567".toList) := by
  decide

/-- C6 (amended).  Whenever the query contains a standalone number of one to
six digits (delimited by word boundaries, which is what `_digits_from_query`
recognises), every record returned by the camera search carries exactly the
first such digit run from the query as its camera number, never a number
extracted from the row's own text; only when the query contains no such
standalone number is the number extracted from the row's number/name cells
(or header/value text in the fallback layout). -/
theorem camBuild_number (d : Str) (colNum colName : Option Str) (ql : Str)
    (cols : List Str) (hits : List Record) :
    ∀ h ∈ camBuild (some d) colNum colName ql cols hits, h.number = d := by
  intro h hm
  unfold camBuild at hm
  split at hm
  · exact buildNormal_number d _ _ _ _ h hm
  · exact buildUnusual_number d _ _ _ _ h hm

theorem c6_number_override_amended (tbl : Table) (query : Str) (limit : Int)
    (d : Str) (hd : digitsFromQuery (stripStr query) = some d) :
    ∀ hit ∈ camSearch tbl query limit, hit.number = d := by
  intro hit hmem
  have hout := List.take_subset _ _ hmem
  simp only [camSearchOut] at hout
  rw [hd] at hout
  exact camBuild_number d _ _ _ _ _ hit hout

/-- C6 amended witness: at the concrete table and the query "204", every
returned record's number is "204". -/
theorem c6_number_override_amended_witness :
    (camSearch c10Table ("204".toList) 10).all
      (fun h => h.number == ("204".toList)) = true := by
  rw [List.all_eq_true]
  intro h hm
  exact beq_iff_eq.mpr
    (c6_number_override_amended c10Table ("204".toList) 10 ("204".toList)
      (by decide) h hm)

/-- C10.  The camera search returns at most `max(1, limit)` records for
every query, table and integer limit; and with `limit = 0` or a negative
limit a query with a non-empty hit set still returns one record — the cap
never goes below one. -/
theorem c10_limit_cap :
    (∀ (tbl : Table) (query : Str) (limit : Int),
      (camSearch tbl query limit).length ≤ (max 1 limit).toNat)
    ∧ (camSearch c10Table ("204".toList) 0).length = 1
    ∧ (camSearch c10Table ("204".toList) (-3)).length = 1
    ∧ (max 1 (0 : Int)).toNat = 1
    ∧ (max 1 (-3 : Int)).toNat = 1 := by
  constructor
  · intro tbl query limit
    simp only [camSearch]
    rw [List.length_take]
    exact Nat.min_le_left _ _
  · decide

/-! ## Table loaders (`doors._load_all` and `cameras.load_all`)

The per-tab worksheet read (`_ws_to_df` for doors, `_read_one` for cameras)
performs the external Google-Sheets I/O; following the spec's treatment of
the spreadsheet client as an external collaborator it is passed in as a
function returning either the processed rows of a tab or an error. -/

inductive LoadErr
  | missingConfig
  | tabFailed
deriving DecidableEq, Repr

/-- The environment configuration read by the two loaders. -/
structure LoadEnv where
  camSheet1 : Option Str
  camTab1 : Option Str
  camSheet2 : Option Str
  camTab2 : Option Str
  doorsSheetId : Option Str
  doorsTabsCsv : Option Str
  doorTabPpk1 : Option Str
  doorTabPpk2 : Option Str
  doorTabExpansion : Option Str

/-- The doors tab list: `DOORS_TABS` split on commas (each entry stripped,
empties dropped) when set, else the three per-site tab variables with their
defaults. -/
def doorsTabs (env : LoadEnv) : List Str :=
  match env.doorsTabsCsv with
  | some s =>
    ((splitRuns (fun c => !(c == ',')) s).map stripStr).filter (fun t => !t.isEmpty)
  | none =>
    [env.doorTabPpk1.getD ("PPK1".toList),
     env.doorTabPpk2.getD ("PPK2".toList),
     env.doorTabExpansion.getD ("Expansion".toList)]

/-- `doors._load_all`: a missing `DOORS_SHEET_ID` raises immediately; each
tab is fetched inside `try/except` and skipped on failure; no surviving
frame (all tabs failed, or none configured) yields the empty table. -/
def doorsLoadAll (fetch : Str → Except Unit (List DoorRow)) (env : LoadEnv) :
    Except LoadErr (List DoorRow) :=
  match env.doorsSheetId with
  | none => Except.error LoadErr.missingConfig
  | some _ =>
    Except.ok
      ((((doorsTabs env).filter (fun t => !t.isEmpty)).filterMap
        (fun t => (fetch t).toOption)).flatten)

/-- `cameras.load_all`: a missing `CAM_PPK1_SHEET_ID` raises immediately;
the PPK1 read is NOT wrapped in `try/except`, so a failing tab read
propagates as an error; the PPK2 tab is read only when its sheet id is
configured, and also propagates failure. -/
def camerasLoadAll (fetch : Str → Str → Str → Except Unit (List Record))
    (env : LoadEnv) : Except LoadErr (List Record) :=
  match env.camSheet1 with
  | none => Except.error LoadErr.missingConfig
  | some sheet1 =>
    match fetch sheet1 (env.camTab1.getD ("PPK1".toList)) ("PPK1".toList) with
    | Except.error _ => Except.error LoadErr.tabFailed
    | Except.ok rows1 =>
      match env.camSheet2 with
      | none => Except.ok rows1
      | some sheet2 =>
        match fetch sheet2 (env.camTab2.getD ("PPK2".toList)) ("PPK2".toList) with
        | Except.error _ => Except.error LoadErr.tabFailed
        | Except.ok rows2 => Except.ok (rows1 ++ rows2)

def c9Env : LoadEnv :=
  LoadEnv.mk (some ("S1".toList)) none (some ("S2".toList)) none
    (some ("SD".toList)) none none none none

def c9EnvNoDoor : LoadEnv :=
  LoadEnv.mk (some ("S1".toList)) none (some ("S2".toList)) none
    none none none none none

def c9EnvNoCam : LoadEnv :=
  LoadEnv.mk none none (some ("S2".toList)) none
    (some ("SD".toList)) none none none none

def c9Row : Record := [(("Door".toList), ("X".toList))]

/-- A camera fetch whose PPK1 sheet read fails while the PPK2 read
succeeds. -/
def c9FetchCam (sheet _tab _site : Str) : Except Unit (List Record) :=
  if sheet = ("S1".toList) then Except.error () else Except.ok [c9Row]

/-- A doors fetch that fails for every tab. -/
def c9DoorFetchFail : Str → Except Unit (List DoorRow) := fun _ => Except.error ()

/-- C9 counterexample.  The claim states that when multiple source tabs are
configured, a single tab that fails to load is skipped while the remaining
tabs still aggregate.  That is true of the doors loader, but the cameras
loader has no `try/except` around its per-tab reads: with both camera
sheets configured and the PPK1 read failing while the PPK2 read succeeds,
`load_all` raises instead of aggregating the surviving tab. -/
theorem c9_load_policy_counterexample :
    camerasLoadAll c9FetchCam c9Env = Except.error LoadErr.tabFailed
    ∧ Except.error LoadErr.tabFailed
      ≠ (Except.ok [c9Row] : Except LoadErr (List Record)) := by
  exact ⟨rfl, fun h => Except.noConfusion h⟩

/-- C9 (amended).  Missing required configuration (no doors sheet id, no
PPK1 camera sheet id) raises immediately in both loaders, never silently
yielding an empty table.  In the doors loader a tab that fails to load is
skipped while the remaining tabs aggregate (the result is exactly the
concatenation of the successfully fetched tabs), and only when every tab
fails is the result the empty table.  In the cameras loader, by contrast, a
failing tab read propagates as an error. -/
theorem c9_load_policy_amended :
    (∀ (fetch : Str → Except Unit (List DoorRow)) (env : LoadEnv),
      env.doorsSheetId = none → doorsLoadAll fetch env = Except.error LoadErr.missingConfig)
    ∧ (∀ (fetch : Str → Str → Str → Except Unit (List Record)) (env : LoadEnv),
      env.camSheet1 = none → camerasLoadAll fetch env = Except.error LoadErr.missingConfig)
    ∧ (∀ (fetch : Str → Except Unit (List DoorRow)) (env : LoadEnv) (sid : Str),
      env.doorsSheetId = some sid →
      doorsLoadAll fetch env = Except.ok
        ((((doorsTabs env).filter (fun t => !t.isEmpty)).filterMap
          (fun t => (fetch t).toOption)).flatten))
    ∧ (∀ (fetch : Str → Except Unit (List DoorRow)) (env : LoadEnv) (sid : Str),
      env.doorsSheetId = some sid → (∀ t, fetch t = Except.error ()) →
      doorsLoadAll fetch env = Except.ok [])
    ∧ (∀ (fetch : Str → Str → Str → Except Unit (List Record)) (env : LoadEnv)
        (sid : Str),
      env.camSheet1 = some sid →
      fetch sid (env.camTab1.getD ("PPK1".toList)) ("PPK1".toList) = Except.error () →
      camerasLoadAll fetch env = Except.error LoadErr.tabFailed) := by
  refine ⟨?_, ?_, ?_, ?_, ?_⟩
  · intro fetch env h
    simp only [doorsLoadAll, h]
  · intro fetch env h
    simp only [camerasLoadAll, h]
  · intro fetch env sid h
    simp only [doorsLoadAll, h]
  · intro fetch env sid h hfail
    simp only [doorsLoadAll, h]
    have hnil : (((doorsTabs env).filter (fun t => !t.isEmpty)).filterMap
        (fun t => (fetch t).toOption)) = [] := by
      rw [List.filterMap_eq_nil_iff]
      intro t _
      rw [hfail t]
      rfl
    rw [hnil]
    rfl
  · intro fetch env sid h hfail
    simp only [camerasLoadAll, h, hfail]

/-- C9 amended witness: the four hypothesised statements at concrete
environments and fetch functions. -/
theorem c9_load_policy_amended_witness :
    doorsLoadAll c9DoorFetchFail c9EnvNoDoor = Except.error LoadErr.missingConfig
    ∧ camerasLoadAll c9FetchCam c9EnvNoCam = Except.error LoadErr.missingConfig
    ∧ doorsLoadAll c9DoorFetchFail c9Env = Except.ok []
    ∧ camerasLoadAll c9FetchCam c9Env = Except.error LoadErr.tabFailed := by
  refine ⟨c9_load_policy_amended.1 c9DoorFetchFail c9EnvNoDoor rfl,
          c9_load_policy_amended.2.1 c9FetchCam c9EnvNoCam rfl,
          c9_load_policy_amended.2.2.2.1 c9DoorFetchFail c9Env ("SD".toList) rfl
            (fun t => rfl),
          c9_load_policy_amended.2.2.2.2 c9FetchCam c9Env ("S1".toList) rfl rfl⟩

end AA
